import Mathlib

/-!
Verification development for the monke interpreter (Go).

The definitions below are a shallow embedding of the Go sources:
* `token/token.go`   — token kinds and the keyword mapping;
* `lexer/lexer.go`   — the byte-stream scanner (`NextToken` and helpers);
* `ast/ast.go`       — AST nodes and their canonical `String` methods;
* `object/object.go` — runtime values, `HashKey` and the FNV-1a hash;
* `object/environment.go` — environment chains (`Get` / `Set`);
* `cmd/profile/main.go`   — the builtin function table.

Go strings are modelled as `List Char` / `String` (the programs involved are
ASCII, where Go's byte indexing and the character model coincide), machine
integers as `Int`/`Nat` with explicit `% 2^64` where Go wraps, Go maps as
association lists together with an explicit iteration-order relation
(iteration order of a Go map is unspecified), and Go slices of objects as
indices into an explicit heap where allocation freshness matters.

Loops from the Go source are written with an explicit fuel argument so that
every definition computes by kernel reduction; the fuel passed by the
wrappers is provably sufficient, and the Go-shaped unfolding equations are
proved as lemmas.
-/

namespace Monke

/-- The null byte used by the lexer as its end-of-input sentinel. -/
def charZero : Char := Char.ofNat 0

/-- Token kinds are strings, exactly the constants of `token/token.go`
(`TokenType` is a Go string type). -/
structure Token where
  type : String
  literal : String
deriving DecidableEq, Repr

/-- The keyword table of `token/token.go`. -/
def keywords : List (String × String) :=
  [("fn", "FUNCTION"), ("let", "LET"), ("true", "TRUE"), ("false", "FALSE"),
   ("if", "IF"), ("else", "ELSE"), ("return", "RETURN")]

/-- `token.LookupIdent`: keyword kind when the lexeme is a keyword,
`IDENT` otherwise. -/
def lookupIdent (ident : String) : String :=
  match keywords.lookup ident with
  | some t => t
  | none => "IDENT"

/-- The lexer state of `lexer.Lexer`: the input, the current position, the
read-ahead position, and the current byte (`charZero` once past the end). -/
structure Lexer where
  input : List Char
  position : Nat
  readPosition : Nat
  ch : Char
deriving DecidableEq, Repr

/-- `Lexer.readChar`: load the byte at `readPosition` (or 0 past the end)
and advance both cursors. -/
def readChar (l : Lexer) : Lexer :=
  { input := l.input
    position := l.readPosition
    readPosition := l.readPosition + 1
    ch := if l.readPosition ≥ l.input.length then charZero
          else l.input.getD l.readPosition charZero }

/-- `lexer.New`: start at the beginning and read the first character. -/
def lexerNew (input : String) : Lexer :=
  readChar { input := input.data, position := 0, readPosition := 0, ch := charZero }

/-- `Lexer.peekChar`: the byte at `readPosition` without advancing. -/
def peekChar (l : Lexer) : Char :=
  if l.readPosition ≥ l.input.length then charZero
  else l.input.getD l.readPosition charZero

def isLetter (ch : Char) : Bool :=
  ('a' ≤ ch ∧ ch ≤ 'z') ∨ ('A' ≤ ch ∧ ch ≤ 'Z') ∨ ch = '_'

def isDigit (ch : Char) : Bool :=
  '0' ≤ ch ∧ ch ≤ '9'

def isWhitespace (ch : Char) : Bool :=
  ch = ' ' ∨ ch = '\t' ∨ ch = '\n' ∨ ch = '\r'

/-- The loop of `Lexer.skipWhitespace`, with fuel. -/
def skipWSFuel : Nat → Lexer → Lexer
  | 0, l => l
  | fuel + 1, l => if isWhitespace l.ch then skipWSFuel fuel (readChar l) else l

/-- `Lexer.skipWhitespace`.  The fuel `input.length + 2` is sufficient:
each iteration advances `readPosition`, and once it passes the end the
current byte becomes 0, which is not whitespace. -/
def skipWhitespace (l : Lexer) : Lexer :=
  skipWSFuel (l.input.length + 2) l

/-- The loop of `Lexer.readIdentifier` (`for isLetter(l.ch) { l.readChar() }`),
with fuel. -/
def readIdentFuel : Nat → Lexer → Lexer
  | 0, l => l
  | fuel + 1, l => if isLetter l.ch then readIdentFuel fuel (readChar l) else l

/-- Substring `l.input[a:b]` of the (immutable) input. -/
def inputSlice (l : Lexer) (a b : Nat) : String :=
  String.mk ((l.input.drop a).take (b - a))

/-- `Lexer.readIdentifier`: remember the start position, fast-forward
through letters, return the slice. -/
def readIdentifier (l : Lexer) : String × Lexer :=
  let pos := l.position
  let l' := readIdentFuel (l.input.length + 2) l
  (inputSlice l' pos l'.position, l')

/-- The loop of `Lexer.readNumber`, with fuel. -/
def readNumberFuel : Nat → Lexer → Lexer
  | 0, l => l
  | fuel + 1, l => if isDigit l.ch then readNumberFuel fuel (readChar l) else l

/-- `Lexer.readNumber`: remember the start position, fast-forward through
digits, return the slice. -/
def readNumber (l : Lexer) : String × Lexer :=
  let pos := l.position
  let l' := readNumberFuel (l.input.length + 2) l
  (inputSlice l' pos l'.position, l')

/-- The loop of `Lexer.readString` (`readChar` then stop at `"` or 0),
with fuel. -/
def readStrFuel : Nat → Lexer → Lexer
  | 0, l => l
  | fuel + 1, l =>
    let l' := readChar l
    if l'.ch = '"' ∨ l'.ch = charZero then l' else readStrFuel fuel l'

/-- `Lexer.readString`: the bytes strictly between the opening quote and
the terminating `"` (or end of input). -/
def readString (l : Lexer) : String × Lexer :=
  let pos := l.position + 1
  let l' := readStrFuel (l.input.length + 2) l
  (inputSlice l' pos l'.position, l')

/-- `Lexer.NextToken`, translating the Go `switch` on the current byte. -/
def nextToken (l : Lexer) : Token × Lexer :=
  let l := skipWhitespace l
  if l.ch = '=' then
    if peekChar l = '=' then (⟨"==", "=="⟩, readChar (readChar l))
    else (⟨"=", "="⟩, readChar l)
  else if l.ch = '!' then
    if peekChar l = '=' then (⟨"!=", "!="⟩, readChar (readChar l))
    else (⟨"!", "!"⟩, readChar l)
  else if l.ch = '+' then (⟨"+", "+"⟩, readChar l)
  else if l.ch = '-' then (⟨"-", "-"⟩, readChar l)
  else if l.ch = '/' then (⟨"/", "/"⟩, readChar l)
  else if l.ch = '*' then (⟨"*", "*"⟩, readChar l)
  else if l.ch = '<' then (⟨"<", "<"⟩, readChar l)
  else if l.ch = '>' then (⟨">", ">"⟩, readChar l)
  else if l.ch = ';' then (⟨";", ";"⟩, readChar l)
  else if l.ch = ':' then (⟨":", ":"⟩, readChar l)
  else if l.ch = ',' then (⟨",", ","⟩, readChar l)
  else if l.ch = '(' then (⟨"(", "("⟩, readChar l)
  else if l.ch = ')' then (⟨")", ")"⟩, readChar l)
  else if l.ch = '{' then (⟨"\x7b", "\x7b"⟩, readChar l)
  else if l.ch = '}' then (⟨"\x7d", "\x7d"⟩, readChar l)
  else if l.ch = '[' then (⟨"[", "["⟩, readChar l)
  else if l.ch = ']' then (⟨"]", "]"⟩, readChar l)
  else if l.ch = '"' then
    (⟨"STRING", (readString l).1⟩, readChar (readString l).2)
  else if l.ch = charZero then (⟨"EOF", ""⟩, l)
  else if isLetter l.ch then
    (⟨lookupIdent (readIdentifier l).1, (readIdentifier l).1⟩, (readIdentifier l).2)
  else if isDigit l.ch then
    (⟨"INT", (readNumber l).1⟩, (readNumber l).2)
  else (⟨"ILLEGAL", String.mk [l.ch]⟩, readChar l)

/-- Collect tokens by repeated `NextToken` until `EOF` (inclusive), as the
REPL's highlighter does.  `fuel` bounds the number of calls. -/
def tokensFuel : Nat → Lexer → List Token
  | 0, _ => []
  | fuel + 1, l =>
    let (t, l') := nextToken l
    if t.type = "EOF" then [t] else t :: tokensFuel fuel l'

/-- The token stream of a source string (each call to `NextToken` past the
first consumes at least one byte, so `length + 1` calls always reach `EOF`). -/
def tokenize (s : String) : List Token :=
  tokensFuel (s.length + 1) (lexerNew s)

example : tokenize "let x = 5;" =
    [⟨"LET", "let"⟩, ⟨"IDENT", "x"⟩, ⟨"=", "="⟩, ⟨"INT", "5"⟩, ⟨";", ";"⟩, ⟨"EOF", ""⟩] := by
  decide

example : tokenize "x1" = [⟨"IDENT", "x"⟩, ⟨"INT", "1"⟩, ⟨"EOF", ""⟩] := by decide

/-! ## AST (`ast/ast.go`)

Statements and expressions, carrying exactly the fields their Go `String`
methods read.  A `*ast.BlockStatement` is modelled by its statement list.
`HashLiteral.Pairs` is a Go `map[Expression]Expression`; the keys are
distinct interface values (pointers), so the map holds one entry per parsed
pair.  We record the entries in insertion order as a list and model the
unspecified iteration order of a Go map separately (`hashIterSeq`). -/

mutual

inductive Expr where
  | ident (value : String)
  | intLit (lit : String) (value : Int)
  | strLit (lit : String)
  | boolLit (lit : String) (value : Bool)
  | prefixE (op : String) (right : Expr)
  | infixE (left : Expr) (op : String) (right : Expr)
  | ifE (cond : Expr) (cons : List Stmt) (alt : Option (List Stmt))
  | fnE (tokenLit : String) (params : List String) (body : List Stmt)
  | callE (fn : Expr) (args : List Expr)
  | arrayE (elems : List Expr)
  | indexE (left : Expr) (idx : Expr)
  | hashE (pairs : List (Expr × Expr))

inductive Stmt where
  | letS (tokenLit : String) (name : String) (value : Option Expr)
  | returnS (tokenLit : String) (value : Option Expr)
  | exprS (value : Option Expr)

end

mutual

/-- The `String()` method of each expression node of `ast/ast.go`. -/
def exprString : Expr → String
  | .ident v => v
  | .intLit lit _ => lit
  | .strLit lit => lit
  | .boolLit lit _ => lit
  | .prefixE op r => "(" ++ op ++ exprString r ++ ")"
  | .infixE l op r => "(" ++ exprString l ++ " " ++ op ++ " " ++ exprString r ++ ")"
  | .ifE c cons alt =>
    "if" ++ exprString c ++ " " ++ blockString cons ++
      (match alt with
       | some a => "else " ++ blockString a
       | none => "")
  | .fnE tok params body =>
    tok ++ "(" ++ String.intercalate ", " params ++ ")" ++ blockString body
  | .callE f args =>
    exprString f ++ "(" ++ String.intercalate ", " (exprStrings args) ++ ")"
  | .arrayE elems => "[" ++ String.intercalate ", " (exprStrings elems) ++ "]"
  | .indexE l i => "(" ++ exprString l ++ "[" ++ exprString i ++ "])"
  | .hashE pairs =>
    "\x7b" ++ String.intercalate ", " (pairStrings pairs) ++ "\x7d"

/-- `String()` of each element of an expression list. -/
def exprStrings : List Expr → List String
  | [] => []
  | e :: es => exprString e :: exprStrings es

/-- The `key.String()+":"+value.String()` entries of `HashLiteral.String`,
in the order the pairs are iterated. -/
def pairStrings : List (Expr × Expr) → List String
  | [] => []
  | (k, v) :: ps => (exprString k ++ ":" ++ exprString v) :: pairStrings ps

/-- `BlockStatement.String`: the concatenation of the member statements
(no braces). -/
def blockString : List Stmt → String
  | [] => ""
  | s :: ss => stmtString s ++ blockString ss

/-- The `String()` method of each statement node of `ast/ast.go`. -/
def stmtString : Stmt → String
  | .letS tok name v =>
    tok ++ " " ++ name ++ " = " ++
      (match v with | some e => exprString e | none => "") ++ ";"
  | .returnS tok v =>
    tok ++ " " ++
      (match v with | some e => exprString e | none => "") ++ ";"
  | .exprS v => match v with | some e => exprString e | none => ""

end

/-- `Program.String`: concatenation of the statement strings. -/
def programString (stmts : List Stmt) : String :=
  blockString stmts

/-- The iteration sequences Go's `for key, value := range hl.Pairs` may
produce for a map holding the entries `pairs` (the keys are distinct
pointers, one entry per parsed pair): iteration order over a Go map is
unspecified, so exactly the permutations of the entries are admissible. -/
def hashIterSeq (pairs seq : List (Expr × Expr)) : Prop :=
  seq.Perm pairs

/-- `HashLiteral.String` when the `range` over the pairs map yields the
entries in the sequence `seq`. -/
def hashLiteralString (seq : List (Expr × Expr)) : String :=
  "\x7b" ++ String.intercalate ", " (pairStrings seq) ++ "\x7d"

/-! ## Parser

Modelled from the spec: the `parser` package (the Pratt expression parser
with recursive-descent statements) is not among the provided sources — only
its tests and callers are — so the definitions in this section follow §4.D
of the specification: the precedence table, the prefix/infix dispatch
tables, the statement grammar, the error strings, and the error-recovery
behaviour (record a message, return no node, keep going).  The token stream
comes from the lexer embedding above.  All loops carry fuel; the entry
point `parseSource` passes fuel that is ample for the inputs considered. -/

def eofToken : Token := ⟨"EOF", ""⟩

/-- Parser state: current token, peek token, remaining tokens, and the
accumulated error strings. -/
structure Parser where
  curToken : Token
  peekToken : Token
  rest : List Token
  errors : List String
deriving Repr

/-- Advance: the peek token becomes current; the next buffered token (or
`EOF`) becomes the peek token. -/
def pAdvance (p : Parser) : Parser :=
  { curToken := p.peekToken
    peekToken := p.rest.headD eofToken
    rest := p.rest.tail
    errors := p.errors }

/-- Initialise from a token list (reads two tokens, like `parser.New`). -/
def parserNew (toks : List Token) : Parser :=
  { curToken := toks.headD eofToken
    peekToken := (toks.drop 1).headD eofToken
    rest := toks.drop 2
    errors := [] }

/-- Record `expected next token to be <KIND>, got <KIND> instead`. -/
def peekError (p : Parser) (kind : String) : Parser :=
  { p with errors :=
      p.errors ++ ["expected next token to be " ++ kind ++ ", got " ++
        p.peekToken.type ++ " instead"] }

/-- Advance when the peek token has the expected kind, else record the
error. -/
def expectPeek (p : Parser) (kind : String) : Bool × Parser :=
  if p.peekToken.type = kind then (true, pAdvance p)
  else (false, peekError p kind)

/-- The precedence table (LOWEST=1 … INDEX=8). -/
def precedenceOf : String → Nat
  | "==" => 2
  | "!=" => 2
  | "<" => 3
  | ">" => 3
  | "+" => 4
  | "-" => 4
  | "/" => 5
  | "*" => 5
  | "(" => 7
  | "[" => 8
  | _ => 1

/-- Token kinds that have an infix parser. -/
def isInfixOp (t : String) : Bool :=
  t = "+" ∨ t = "-" ∨ t = "/" ∨ t = "*" ∨ t = "==" ∨ t = "!=" ∨
  t = "<" ∨ t = ">" ∨ t = "(" ∨ t = "["

/-- Modelled from the spec: the integer-literal conversion
(`strconv.ParseInt(literal, 0, 64)` in the parser, absent from the provided
sources) applied to the lexer's digit-run `INT` literals: the decimal
value, or failure when the literal is not a digit run or overflows a
signed 64-bit integer. -/
def parseIntLit (lit : String) : Option Int :=
  if lit.data ≠ [] ∧ lit.data.all isDigit then
    let n : Nat := lit.data.foldl (fun acc c => acc * 10 + (c.toNat - 48)) 0
    if n ≤ 9223372036854775807 then some (n : Int) else none
  else none

/-- Does the current token kind have a prefix parser?  (Used only to decide
whether the `no prefix parse function` message applies.) -/
def hasPrefix₀ (t : String) : Bool :=
  t = "IDENT" ∨ t = "INT" ∨ t = "STRING" ∨ t = "TRUE" ∨ t = "FALSE" ∨
  t = "!" ∨ t = "-" ∨ t = "(" ∨ t = "IF" ∨ t = "FUNCTION" ∨ t = "[" ∨ t = "\x7b"

mutual

/-- `parse_program`: statements until `EOF`, skipping failed ones. -/
def parseProgram : Nat → Parser → List Stmt × Parser
  | 0, p => ([], p)
  | fuel + 1, p =>
    if p.curToken.type = "EOF" then ([], p)
    else
      let (st, p₁) := parseStatement fuel p
      let p₂ := pAdvance p₁
      let (more, p₃) := parseProgram fuel p₂
      ((match st with | some s => [s] | none => []) ++ more, p₃)

/-- Statement dispatch: `let`, `return`, else expression statement. -/
def parseStatement : Nat → Parser → Option Stmt × Parser
  | 0, p => (none, p)
  | fuel + 1, p =>
    if p.curToken.type = "LET" then
      let tok := p.curToken.literal
      let (ok, p₁) := expectPeek p "IDENT"
      if ok then
        let name := p₁.curToken.literal
        let (ok₂, p₂) := expectPeek p₁ "="
        if ok₂ then
          let p₃ := pAdvance p₂
          let (v, p₄) := parseExpression fuel 1 p₃
          let p₅ := if p₄.peekToken.type = ";" then pAdvance p₄ else p₄
          (some (.letS tok name v), p₅)
        else (none, p₂)
      else (none, p₁)
    else if p.curToken.type = "RETURN" then
      let tok := p.curToken.literal
      let p₁ := pAdvance p
      let (v, p₂) := parseExpression fuel 1 p₁
      let p₃ := if p₂.peekToken.type = ";" then pAdvance p₂ else p₂
      (some (.returnS tok v), p₃)
    else
      let (e, p₁) := parseExpression fuel 1 p
      let p₂ := if p₁.peekToken.type = ";" then pAdvance p₁ else p₁
      (some (.exprS e), p₂)

/-- `parse_expression(precedence)`: prefix dispatch, then the infix loop. -/
def parseExpression : Nat → Nat → Parser → Option Expr × Parser
  | 0, _, p => (none, p)
  | fuel + 1, prec, p =>
    let (left, p₁) := parsePrefixExpr fuel p
    match left with
    | none =>
      if hasPrefix₀ p.curToken.type then (none, p₁)
      else
        (none, { p₁ with errors := p₁.errors ++
          ["no prefix parse function for " ++ p.curToken.type ++ " found"] })
    | some l => parseInfixLoop fuel prec l p₁

/-- The `while` of step 3 of `parse_expression`. -/
def parseInfixLoop : Nat → Nat → Expr → Parser → Option Expr × Parser
  | 0, _, l, p => (some l, p)
  | fuel + 1, prec, l, p =>
    if p.peekToken.type ≠ ";" ∧ prec < precedenceOf p.peekToken.type then
      if isInfixOp p.peekToken.type then
        let p₁ := pAdvance p
        let (l', p₂) := parseInfixExpr fuel l p₁
        match l' with
        | some l'' => parseInfixLoop fuel prec l'' p₂
        | none => (none, p₂)
      else (some l, p)
    else (some l, p)

/-- The prefix parsers (dispatch on the current token kind). -/
def parsePrefixExpr : Nat → Parser → Option Expr × Parser
  | 0, p => (none, p)
  | fuel + 1, p =>
    if p.curToken.type = "IDENT" then (some (.ident p.curToken.literal), p)
    else if p.curToken.type = "INT" then
      match parseIntLit p.curToken.literal with
      | some n => (some (.intLit p.curToken.literal n), p)
      | none =>
        (none, { p with errors := p.errors ++
          ["could not parse " ++ p.curToken.literal ++ " as integer"] })
    else if p.curToken.type = "STRING" then (some (.strLit p.curToken.literal), p)
    else if p.curToken.type = "TRUE" ∨ p.curToken.type = "FALSE" then
      (some (.boolLit p.curToken.literal (p.curToken.type == "TRUE")), p)
    else if p.curToken.type = "!" ∨ p.curToken.type = "-" then
      let op := p.curToken.literal
      let p₁ := pAdvance p
      let (r, p₂) := parseExpression fuel 6 p₁
      (r.map (.prefixE op ·), p₂)
    else if p.curToken.type = "(" then
      let p₁ := pAdvance p
      let (e, p₂) := parseExpression fuel 1 p₁
      let (ok, p₃) := expectPeek p₂ ")"
      (if ok then e else none, p₃)
    else if p.curToken.type = "IF" then
      let (ok, p₁) := expectPeek p "("
      if ok then
        let p₂ := pAdvance p₁
        let (cond, p₃) := parseExpression fuel 1 p₂
        let (ok₂, p₄) := expectPeek p₃ ")"
        if ok₂ then
          let (ok₃, p₅) := expectPeek p₄ "\x7b"
          if ok₃ then
            let (cons, p₆) := parseBlock fuel p₅
            if p₆.peekToken.type = "ELSE" then
              let p₇ := pAdvance p₆
              let (ok₄, p₈) := expectPeek p₇ "\x7b"
              if ok₄ then
                let (alt, p₉) := parseBlock fuel p₈
                (cond.map (.ifE · cons (some alt)), p₉)
              else (none, p₈)
            else (cond.map (.ifE · cons none), p₆)
          else (none, p₅)
        else (none, p₄)
      else (none, p₁)
    else if p.curToken.type = "FUNCTION" then
      let tok := p.curToken.literal
      let (ok, p₁) := expectPeek p "("
      if ok then
        let (params, p₂) := parseFnParams fuel p₁
        match params with
        | none => (none, p₂)
        | some ps =>
          let (ok₂, p₃) := expectPeek p₂ "\x7b"
          if ok₂ then
            let (body, p₄) := parseBlock fuel p₃
            (some (.fnE tok ps body), p₄)
          else (none, p₃)
      else (none, p₁)
    else if p.curToken.type = "[" then
      let (elems, p₁) := parseExprList fuel "]" p
      (elems.map .arrayE, p₁)
    else if p.curToken.type = "\x7b" then
      let (pairs, p₁) := parseHashPairs fuel [] p
      (pairs.map .hashE, p₁)
    else (none, p)

/-- The infix parsers (current token is the operator / `(` / `[`). -/
def parseInfixExpr : Nat → Expr → Parser → Option Expr × Parser
  | 0, _, p => (none, p)
  | fuel + 1, l, p =>
    if p.curToken.type = "(" then
      let (args, p₁) := parseExprList fuel ")" p
      (args.map (.callE l ·), p₁)
    else if p.curToken.type = "[" then
      let p₁ := pAdvance p
      let (idx, p₂) := parseExpression fuel 1 p₁
      let (ok, p₃) := expectPeek p₂ "]"
      (if ok then idx.map (.indexE l ·) else none, p₃)
    else
      let op := p.curToken.literal
      let prec := precedenceOf p.curToken.type
      let p₁ := pAdvance p
      let (r, p₂) := parseExpression fuel prec p₁
      (r.map (.infixE l op ·), p₂)

/-- Comma-separated expression list terminated by `endKind` (array
elements, call arguments).  The current token is the opening bracket. -/
def parseExprList : Nat → String → Parser → Option (List Expr) × Parser
  | 0, _, p => (none, p)
  | fuel + 1, endKind, p =>
    if p.peekToken.type = endKind then (some [], pAdvance p)
    else
      let p₁ := pAdvance p
      let (e, p₂) := parseExpression fuel 1 p₁
      match e with
      | none => (none, p₂)
      | some e₀ =>
        let (more, p₃) := parseExprListRest fuel endKind p₂
        (more.map (e₀ :: ·), p₃)

/-- The `for peekTokenIs(COMMA)` tail of the expression list, then the
required end token. -/
def parseExprListRest : Nat → String → Parser → Option (List Expr) × Parser
  | 0, _, p => (none, p)
  | fuel + 1, endKind, p =>
    if p.peekToken.type = "," then
      let p₁ := pAdvance (pAdvance p)
      let (e, p₂) := parseExpression fuel 1 p₁
      match e with
      | none => (none, p₂)
      | some e₀ =>
        let (more, p₃) := parseExprListRest fuel endKind p₂
        (more.map (e₀ :: ·), p₃)
    else
      let (ok, p₁) := expectPeek p endKind
      (if ok then some [] else none, p₁)

/-- Comma-separated `IDENT` parameter list of a function literal; consumes
the closing `)`. -/
def parseFnParams : Nat → Parser → Option (List String) × Parser
  | 0, p => (none, p)
  | fuel + 1, p =>
    if p.peekToken.type = ")" then (some [], pAdvance p)
    else
      let p₁ := pAdvance p
      let (more, p₂) := parseFnParamsRest fuel p₁
      (more.map (p₁.curToken.literal :: ·), p₂)

/-- The comma tail of the parameter list, then the required `)`. -/
def parseFnParamsRest : Nat → Parser → Option (List String) × Parser
  | 0, p => (none, p)
  | fuel + 1, p =>
    if p.peekToken.type = "," then
      let p₁ := pAdvance (pAdvance p)
      let (more, p₂) := parseFnParamsRest fuel p₁
      (more.map (p₁.curToken.literal :: ·), p₂)
    else
      let (ok, p₁) := expectPeek p ")"
      (if ok then some [] else none, p₁)

/-- `expr : expr` pairs terminated by `}` (hash literal).  Successive pairs
are inserted into the node's map in source order; `acc` is that insertion
sequence. -/
def parseHashPairs : Nat → List (Expr × Expr) → Parser →
    Option (List (Expr × Expr)) × Parser
  | 0, _, p => (none, p)
  | fuel + 1, acc, p =>
    if p.peekToken.type = "\x7d" then (some acc, pAdvance p)
    else
      let p₁ := pAdvance p
      let (k, p₂) := parseExpression fuel 1 p₁
      match k with
      | none => (none, p₂)
      | some k₀ =>
        let (ok, p₃) := expectPeek p₂ ":"
        if ok then
          let p₄ := pAdvance p₃
          let (v, p₅) := parseExpression fuel 1 p₄
          match v with
          | none => (none, p₅)
          | some v₀ =>
            if p₅.peekToken.type = "\x7d" then
              (some (acc ++ [(k₀, v₀)]), pAdvance p₅)
            else
              let (ok₂, p₆) := expectPeek p₅ ","
              if ok₂ then parseHashPairs fuel (acc ++ [(k₀, v₀)]) p₆
              else (none, p₆)
        else (none, p₃)

/-- Block: consume `{`, parse statements until `}` or `EOF`. -/
def parseBlock : Nat → Parser → List Stmt × Parser
  | 0, p => ([], p)
  | fuel + 1, p =>
    let p₁ := pAdvance p
    parseBlockLoop fuel p₁

/-- The statement loop of block parsing (current token is inside the
block). -/
def parseBlockLoop : Nat → Parser → List Stmt × Parser
  | 0, p => ([], p)
  | fuel + 1, p =>
    if p.curToken.type = "\x7d" ∨ p.curToken.type = "EOF" then ([], p)
    else
      let (st, p₁) := parseStatement fuel p
      let p₂ := pAdvance p₁
      let (more, p₃) := parseBlockLoop fuel p₂
      ((match st with | some s => [s] | none => []) ++ more, p₃)

end

/-- Modelled from the spec: `parse(source) → (Program, errors[])` — the
`parser` package entry point (`parser.New` + `ParseProgram` + `Errors`),
absent from the provided sources.  The fuel is generous for the source
length. -/
def parseSource (s : String) : List Stmt × List String :=
  let (prog, p) := parseProgram (4 * (s.length + 8)) (parserNew (tokenize s))
  (prog, p.errors)

/-! ## Hash keys (`object/object.go`)

`HashKey` is a pair of the object's type tag and an unsigned 64-bit number.
`hash/fnv`'s 64-bit FNV-1a is modelled directly (its `Write` method always
succeeds — it ends in `return len(data), nil` — which is what makes the
error branch of `String.HashKey` unreachable). -/

/-- A hash key: type tag and 64-bit numeric (`object.HashKey`). -/
structure HashKey where
  type : String
  value : Nat
deriving DecidableEq, Repr

/-- One step of 64-bit FNV-1a: XOR in the byte, multiply by the FNV prime,
wrap at 2^64. -/
def fnv1aStep (h b : Nat) : Nat :=
  ((h ^^^ b) * 1099511628211) % (2 ^ 64)

/-- 64-bit FNV-1a over a byte sequence (offset basis
`14695981039346656037`), as computed by `fnv.New64a().Write(...).Sum64()`. -/
def fnv1a64 (bytes : List Nat) : Nat :=
  bytes.foldl fnv1aStep 14695981039346656037

/-- `hash/fnv`'s `sum64a.Write`: unconditionally succeeds with the updated
sum (modelled as the final `Sum64`); `none` would be a write failure, which
never happens. -/
def fnvWrite (bytes : List Nat) : Option Nat :=
  some (fnv1a64 bytes)

/-- The hashable runtime values: Integer, Boolean, String (payload =
byte contents). -/
inductive HObj where
  | hint (value : Int)
  | hbool (value : Bool)
  | hstr (value : List Nat)
deriving DecidableEq, Repr

/-- The `Type()` tag of a hashable value. -/
def hTypeTag : HObj → String
  | .hint _ => "INTEGER"
  | .hbool _ => "BOOLEAN"
  | .hstr _ => "STRING"

/-- A structural copy of a value (same variant, equal payload). -/
def hClone : HObj → HObj
  | .hint v => .hint v
  | .hbool v => .hbool v
  | .hstr v => .hstr v

/-- The `HashKey()` methods of `object/object.go`:
Integer reinterprets its `int64` as `uint64` (two's complement, mod 2^64);
Boolean maps to 1/0; String hashes its bytes with 64-bit FNV-1a. -/
def hashKeyOf : HObj → HashKey
  | .hint v => ⟨"INTEGER", (v % (2 ^ 64 : Int)).toNat⟩
  | .hbool v => ⟨"BOOLEAN", if v then 1 else 0⟩
  | .hstr v => ⟨"STRING", fnv1a64 v⟩

/-- `object.String` with its private hash-key cache (`hashKey *HashKey`,
`nil` at construction). -/
structure StrObj where
  value : List Nat
  hashKey : Option HashKey
deriving DecidableEq, Repr

/-- `String.HashKey()`: return the cached key when present; otherwise
write the bytes into a fresh FNV-64a hasher (taking the `ERROR`-tagged
escape hatch if the write failed), cache and return the key.  Returns the
key together with the receiver after the cache update. -/
def strHashKey (s : StrObj) : HashKey × StrObj :=
  match s.hashKey with
  | some k => (k, s)
  | none =>
    match fnvWrite s.value with
    | none => (⟨"ERROR", 0⟩, s)
    | some v =>
      let k : HashKey := ⟨"STRING", v⟩
      (k, { s with hashKey := some k })

/-! ## Runtime values, environments and builtins

Runtime values as the builtins see them.  A Go `*object.Array` is a pointer
to a slice; to express allocation freshness and the absence of mutation we
give arrays an explicit heap (`Heap`) of element lists and let an array
value be an index into it.  The other variants carry their payloads
directly. -/

/-- Runtime values (`object.Object` implementers used by the claims). -/
inductive ObjV where
  | int (value : Int)
  | bool (value : Bool)
  | str (value : List Nat)
  | null
  | arrRef (idx : Nat)
  | error (message : String)
deriving DecidableEq, Repr

/-- The heap of array element lists; `ObjV.arrRef i` denotes the array
whose elements are the `i`-th entry. -/
abbrev Heap := List (List ObjV)

/-- The `Type()` strings of `object/object.go`. -/
def typeName : ObjV → String
  | .int _ => "INTEGER"
  | .bool _ => "BOOLEAN"
  | .str _ => "STRING"
  | .null => "NULL"
  | .arrRef _ => "ARRAY"
  | .error _ => "ERROR"

/-- `object.Environment`: a string→value store plus an outer environment
pointer that is `nil` for the root (`NewEnvironment`) and set for an
enclosed scope (`NewEnclosedEnvironment`); the two cases are the two
constructors. -/
inductive Env where
  | root (store : List (String × ObjV))
  | enclosed (store : List (String × ObjV)) (outer : Env)

/-- Go map assignment `e.store[name] = val`: replace the binding when the
key is present, add it otherwise. -/
def storeSet (store : List (String × ObjV)) (n : String) (v : ObjV) :
    List (String × ObjV) :=
  if store.any (·.1 = n) then
    store.map (fun q => if q.1 = n then (n, v) else q)
  else store ++ [(n, v)]

/-- `Environment.Get`: the own store first; on a miss, the outer
environment when there is one. -/
def envGet : Env → String → Option ObjV
  | .root store, n => store.lookup n
  | .enclosed store outer, n =>
    match store.lookup n with
    | some v => some v
    | none => envGet outer n

/-- `Environment.Set`: always writes into the receiver's own store. -/
def envSet : Env → String → ObjV → Env
  | .root store, n, v => .root (storeSet store n v)
  | .enclosed store outer, n, v => .enclosed (storeSet store n v) outer

/-- The stores of the chain, innermost first. -/
def frames : Env → List (List (String × ObjV))
  | .root store => [store]
  | .enclosed store outer => store :: frames outer

/-- The specification's description of lookup ("Lookup walks the chain to
the root"): the first frame that binds the name wins. -/
def chainLookup (fs : List (List (String × ObjV))) (n : String) : Option ObjV :=
  match fs with
  | [] => none
  | f :: rest =>
    match f.lookup n with
    | some v => some v
    | none => chainLookup rest n

/-! The builtin table of `cmd/profile/main.go` (`len`, `first`, `last`,
`rest`, `push`).  Each builtin takes the heap and the argument list and
returns the (possibly extended) heap and the result; none of them ever
writes to an existing heap cell.  Go's leading `len(args) != K` check is
rendered as the match's default arm (the one- and two-element patterns
are exactly the argument lists of the right length), and the pointer
dereference `arg.Elements` is `Heap.getD` (a live `*object.Array` always
points at a cell). -/

/-- Builtin `len`. -/
def builtinLen (h : Heap) (args : List ObjV) : Heap × ObjV :=
  match args with
  | [a] =>
    match a with
    | .str s => (h, .int s.length)
    | .arrRef i => (h, .int (h.getD i []).length)
    | _ => (h, .error ("argument to `len` not supported, got " ++ typeName a))
  | _ =>
    (h, .error ("wrong number of arguments. got=" ++ toString args.length ++
      ", want=1"))

/-- Builtin `first`. -/
def builtinFirst (h : Heap) (args : List ObjV) : Heap × ObjV :=
  match args with
  | [a] =>
    match a with
    | .arrRef i =>
      if (h.getD i []).length > 0 then (h, (h.getD i []).headD .null)
      else (h, .null)
    | _ => (h, .error ("argument to `first` not supported, got " ++ typeName a))
  | _ =>
    (h, .error ("wrong number of arguments. got=" ++ toString args.length ++
      ", want=1"))

/-- Builtin `last`. -/
def builtinLast (h : Heap) (args : List ObjV) : Heap × ObjV :=
  match args with
  | [a] =>
    match a with
    | .arrRef i =>
      if (h.getD i []).length > 0 then (h, (h.getD i []).getLastD .null)
      else (h, .null)
    | _ => (h, .error ("argument to `last` not supported, got " ++ typeName a))
  | _ =>
    (h, .error ("wrong number of arguments. got=" ++ toString args.length ++
      ", want=1"))

/-- Builtin `rest`: a non-empty array yields a freshly allocated copy of
the elements from index 1 on. -/
def builtinRest (h : Heap) (args : List ObjV) : Heap × ObjV :=
  match args with
  | [a] =>
    match a with
    | .arrRef i =>
      if (h.getD i []).length > 0 then
        (h ++ [(h.getD i []).tail], .arrRef h.length)
      else (h, .null)
    | _ => (h, .error ("argument to `rest` not supported, got " ++ typeName a))
  | _ =>
    (h, .error ("wrong number of arguments. got=" ++ toString args.length ++
      ", want=1"))

/-- Builtin `push`: a fresh array holding the old elements followed by the
new value; the old cell is untouched. -/
def builtinPush (h : Heap) (args : List ObjV) : Heap × ObjV :=
  match args with
  | [a, x] =>
    match a with
    | .arrRef i => (h ++ [(h.getD i []) ++ [x]], .arrRef h.length)
    | _ => (h, .error ("argument to `push` not supported, got " ++ typeName a))
  | _ =>
    (h, .error ("wrong number of arguments. got=" ++ toString args.length ++
      ", want=2"))

/-! ## Index evaluation (evaluator) -/

/-- Modelled from the spec: `evalArrayIndexExpression` of the `evaluator`
package (absent from the provided sources) — "Array + Integer: return
element at index or Null if out of bounds (no error)". -/
def evalArrayIndexExpression (elems : List ObjV) (i : Int) : ObjV :=
  let mx : Int := (elems.length : Int) - 1
  if i < 0 ∨ i > mx then .null
  else elems.getD i.toNat .null

/-- Modelled from the spec: `evalHashIndexExpression` of the `evaluator`
package (absent from the provided sources) — "Hash + hashable key: compute
hash key; return stored value or Null if absent".  `pairs` maps each hash
key to the stored value of its `HashPair`. -/
def evalHashIndexExpression (pairs : List (HashKey × ObjV)) (k : HashKey) : ObjV :=
  match pairs.lookup k with
  | some v => v
  | none => .null

/-! ## Lexer lemmas

Fuel-independence of the scanning loops above their (always sufficient)
fuel, and the Go-shaped unfolding equations of the wrappers. -/

theorem skipWSFuel_id (fuel : Nat) (l : Lexer) (h : isWhitespace l.ch = false) :
    skipWSFuel fuel l = l := by
  cases fuel <;> simp [skipWSFuel, h]

theorem readIdentFuel_id (fuel : Nat) (l : Lexer) (h : isLetter l.ch = false) :
    readIdentFuel fuel l = l := by
  cases fuel <;> simp [readIdentFuel, h]

theorem skipWSFuel_congr (f₁ : Nat) : ∀ (f₂ : Nat) (l : Lexer),
    l.input.length + 1 - l.readPosition < f₁ →
    l.input.length + 1 - l.readPosition < f₂ →
    skipWSFuel f₁ l = skipWSFuel f₂ l := by
  induction f₁ with
  | zero => intro f₂ l h₁ h₂; omega
  | succ n ih =>
    intro f₂ l h₁ h₂
    obtain ⟨m, rfl⟩ : ∃ m, f₂ = m + 1 := ⟨f₂ - 1, by omega⟩
    by_cases hws : isWhitespace l.ch
    · simp only [skipWSFuel, hws, if_true]
      by_cases hrp : l.input.length ≤ l.readPosition
      · have hch : isWhitespace (readChar l).ch = false := by
          simp only [readChar, ge_iff_le, hrp, if_true]
          decide
        rw [skipWSFuel_id n _ hch, skipWSFuel_id m _ hch]
      · refine ih _ _ ?_ ?_ <;> simp [readChar] <;> omega
    · simp [skipWSFuel, hws]

theorem readIdentFuel_congr (f₁ : Nat) : ∀ (f₂ : Nat) (l : Lexer),
    l.input.length + 1 - l.readPosition < f₁ →
    l.input.length + 1 - l.readPosition < f₂ →
    readIdentFuel f₁ l = readIdentFuel f₂ l := by
  induction f₁ with
  | zero => intro f₂ l h₁ h₂; omega
  | succ n ih =>
    intro f₂ l h₁ h₂
    obtain ⟨m, rfl⟩ : ∃ m, f₂ = m + 1 := ⟨f₂ - 1, by omega⟩
    by_cases hlt : isLetter l.ch
    · simp only [readIdentFuel, hlt, if_true]
      by_cases hrp : l.input.length ≤ l.readPosition
      · have hch : isLetter (readChar l).ch = false := by
          simp only [readChar, ge_iff_le, hrp, if_true]
          decide
        rw [readIdentFuel_id n _ hch, readIdentFuel_id m _ hch]
      · refine ih _ _ ?_ ?_ <;> simp [readChar] <;> omega
    · simp [readIdentFuel, hlt]

/-- `skipWhitespace` satisfies the Go loop's unfolding equation: the fuel
passed by the wrapper never runs out. -/
theorem skipWhitespace_go_eq (l : Lexer) :
    skipWhitespace l = if isWhitespace l.ch then skipWhitespace (readChar l) else l := by
  by_cases hws : isWhitespace l.ch
  · rw [if_pos hws]
    unfold skipWhitespace
    have hstep : skipWSFuel (l.input.length + 2) l =
        skipWSFuel (l.input.length + 1) (readChar l) := by
      rw [show l.input.length + 2 = (l.input.length + 1) + 1 from rfl]
      conv_lhs => rw [skipWSFuel]
      rw [if_pos hws]
    rw [hstep]
    refine skipWSFuel_congr _ _ _ ?_ ?_ <;> simp [readChar] <;> omega
  · rw [if_neg hws]
    exact skipWSFuel_id _ _ (by simpa using hws)

/-- The loop inside `readIdentifier` satisfies the Go unfolding equation at
the wrapper's fuel. -/
theorem readIdentLoop_go_eq (l : Lexer) :
    readIdentFuel (l.input.length + 2) l =
      if isLetter l.ch then
        readIdentFuel ((readChar l).input.length + 2) (readChar l)
      else l := by
  by_cases hlt : isLetter l.ch
  · rw [if_pos hlt]
    have hstep : readIdentFuel (l.input.length + 2) l =
        readIdentFuel (l.input.length + 1) (readChar l) := by
      rw [show l.input.length + 2 = (l.input.length + 1) + 1 from rfl]
      conv_lhs => rw [readIdentFuel]
      rw [if_pos hlt]
    rw [hstep]
    refine readIdentFuel_congr _ _ _ ?_ ?_ <;> simp [readChar] <;> omega
  · rw [if_neg hlt]
    exact readIdentFuel_id _ _ (by simpa using hlt)

/-- `LookupIdent` never yields the `EOF` kind. -/
theorem lookupIdent_ne_eof (s : String) : lookupIdent s ≠ "EOF" := by
  unfold lookupIdent keywords
  simp only [List.lookup]
  split
  case h_1 t heq =>
    repeat' split at heq
    all_goals try (injection heq with h2; subst h2; decide)
    all_goals simp_all
  case h_2 => simp

/-- At the end-of-input sentinel, `NextToken` returns `EOF` and leaves the
state untouched. -/
theorem nextToken_at_zero (s : Lexer) (hch : s.ch = charZero) :
    nextToken s = (⟨"EOF", ""⟩, s) := by
  unfold nextToken
  have hskip : skipWhitespace s = s :=
    skipWSFuel_id _ _ (by rw [hch]; decide)
  rw [hskip]
  dsimp only
  rw [hch]
  simp only [hch,
    eq_false (show ¬(charZero = '=') from by decide),
    eq_false (show ¬(charZero = '!') from by decide),
    eq_false (show ¬(charZero = '+') from by decide),
    eq_false (show ¬(charZero = '-') from by decide),
    eq_false (show ¬(charZero = '/') from by decide),
    eq_false (show ¬(charZero = '*') from by decide),
    eq_false (show ¬(charZero = '<') from by decide),
    eq_false (show ¬(charZero = '>') from by decide),
    eq_false (show ¬(charZero = ';') from by decide),
    eq_false (show ¬(charZero = ':') from by decide),
    eq_false (show ¬(charZero = ',') from by decide),
    eq_false (show ¬(charZero = '(') from by decide),
    eq_false (show ¬(charZero = ')') from by decide),
    eq_false (show ¬(charZero = '{') from by decide),
    eq_false (show ¬(charZero = '}') from by decide),
    eq_false (show ¬(charZero = '[') from by decide),
    eq_false (show ¬(charZero = ']') from by decide),
    eq_false (show ¬(charZero = '\"') from by decide),
    ite_false]
  simp

/-- A returned `EOF` token can only come from the sentinel branch: the
token is literally `⟨"EOF", ""⟩` and the post-state is stuck at the
sentinel. -/
theorem nextToken_eof_state (l : Lexer) (t : Token) (l' : Lexer)
    (h : nextToken l = (t, l')) (heof : t.type = "EOF") :
    t = ⟨"EOF", ""⟩ ∧ l'.ch = charZero := by
  unfold nextToken at h
  dsimp only at h
  generalize hs : skipWhitespace l = s at h
  by_cases c1 : s.ch = '='
  · rw [if_pos c1] at h
    by_cases c1a : peekChar s = '='
    · rw [if_pos c1a] at h
      injection h with hA hB; subst hA; dsimp only at heof; exact absurd heof (by decide)
    · rw [if_neg c1a] at h
      injection h with hA hB; subst hA; dsimp only at heof; exact absurd heof (by decide)
  rw [if_neg c1] at h
  by_cases c2 : s.ch = '!'
  · rw [if_pos c2] at h
    by_cases c2a : peekChar s = '='
    · rw [if_pos c2a] at h
      injection h with hA hB; subst hA; dsimp only at heof; exact absurd heof (by decide)
    · rw [if_neg c2a] at h
      injection h with hA hB; subst hA; dsimp only at heof; exact absurd heof (by decide)
  rw [if_neg c2] at h
  by_cases c3 : s.ch = '+'
  · rw [if_pos c3] at h
    injection h with hA hB; subst hA; dsimp only at heof; exact absurd heof (by decide)
  rw [if_neg c3] at h
  by_cases c4 : s.ch = '-'
  · rw [if_pos c4] at h
    injection h with hA hB; subst hA; dsimp only at heof; exact absurd heof (by decide)
  rw [if_neg c4] at h
  by_cases c5 : s.ch = '/'
  · rw [if_pos c5] at h
    injection h with hA hB; subst hA; dsimp only at heof; exact absurd heof (by decide)
  rw [if_neg c5] at h
  by_cases c6 : s.ch = '*'
  · rw [if_pos c6] at h
    injection h with hA hB; subst hA; dsimp only at heof; exact absurd heof (by decide)
  rw [if_neg c6] at h
  by_cases c7 : s.ch = '<'
  · rw [if_pos c7] at h
    injection h with hA hB; subst hA; dsimp only at heof; exact absurd heof (by decide)
  rw [if_neg c7] at h
  by_cases c8 : s.ch = '>'
  · rw [if_pos c8] at h
    injection h with hA hB; subst hA; dsimp only at heof; exact absurd heof (by decide)
  rw [if_neg c8] at h
  by_cases c9 : s.ch = ';'
  · rw [if_pos c9] at h
    injection h with hA hB; subst hA; dsimp only at heof; exact absurd heof (by decide)
  rw [if_neg c9] at h
  by_cases c10 : s.ch = ':'
  · rw [if_pos c10] at h
    injection h with hA hB; subst hA; dsimp only at heof; exact absurd heof (by decide)
  rw [if_neg c10] at h
  by_cases c11 : s.ch = ','
  · rw [if_pos c11] at h
    injection h with hA hB; subst hA; dsimp only at heof; exact absurd heof (by decide)
  rw [if_neg c11] at h
  by_cases c12 : s.ch = '('
  · rw [if_pos c12] at h
    injection h with hA hB; subst hA; dsimp only at heof; exact absurd heof (by decide)
  rw [if_neg c12] at h
  by_cases c13 : s.ch = ')'
  · rw [if_pos c13] at h
    injection h with hA hB; subst hA; dsimp only at heof; exact absurd heof (by decide)
  rw [if_neg c13] at h
  by_cases c14 : s.ch = '{'
  · rw [if_pos c14] at h
    injection h with hA hB; subst hA; dsimp only at heof; exact absurd heof (by decide)
  rw [if_neg c14] at h
  by_cases c15 : s.ch = '}'
  · rw [if_pos c15] at h
    injection h with hA hB; subst hA; dsimp only at heof; exact absurd heof (by decide)
  rw [if_neg c15] at h
  by_cases c16 : s.ch = '['
  · rw [if_pos c16] at h
    injection h with hA hB; subst hA; dsimp only at heof; exact absurd heof (by decide)
  rw [if_neg c16] at h
  by_cases c17 : s.ch = ']'
  · rw [if_pos c17] at h
    injection h with hA hB; subst hA; dsimp only at heof; exact absurd heof (by decide)
  rw [if_neg c17] at h
  by_cases c18 : s.ch = '\"'
  · rw [if_pos c18] at h
    injection h with hA hB; subst hA; dsimp only at heof; exact absurd heof (by decide)
  rw [if_neg c18] at h
  by_cases c19 : s.ch = charZero
  · rw [if_pos c19] at h
    injection h with hA hB; subst hA; subst hB
    exact ⟨rfl, c19⟩
  rw [if_neg c19] at h
  by_cases c20 : isLetter s.ch
  · rw [if_pos c20] at h
    injection h with hA hB; subst hA
    exact absurd heof (lookupIdent_ne_eof _)
  rw [if_neg c20] at h
  by_cases c21 : isDigit s.ch
  · rw [if_pos c21] at h
    injection h with hA hB; subst hA; dsimp only at heof; exact absurd heof (by decide)
  rw [if_neg c21] at h
  injection h with hA hB; subst hA; dsimp only at heof; exact absurd heof (by decide)

/-! ## Environment and printing helper lemmas -/

theorem envGet_eq_chain (e : Env) (n : String) :
    envGet e n = chainLookup (frames e) n := by
  induction e with
  | root store =>
    simp only [envGet, frames, chainLookup]
    cases List.lookup n store <;> simp
  | enclosed store outer ih =>
    simp only [envGet, frames, chainLookup]
    split <;> simp_all

theorem chainLookup_eq_none (fs : List (List (String × ObjV))) (n : String) :
    chainLookup fs n = none ↔ ∀ f ∈ fs, f.lookup n = none := by
  induction fs with
  | nil => simp [chainLookup]
  | cons f rest ih =>
    simp only [chainLookup]
    cases hf : List.lookup n f with
    | some v =>
      constructor
      · intro hc; exact Option.noConfusion hc
      · intro hall
        have h1 := hall f (List.mem_cons_self f rest)
        rw [h1] at hf
        exact Option.noConfusion hf
    | none =>
      rw [ih]
      constructor
      · intro hall g hg
        rcases List.mem_cons.mp hg with rfl | hg2
        · exact hf
        · exact hall g hg2
      · intro hall g hg
        exact hall g (List.mem_cons_of_mem f hg)

theorem pairStrings_eq_map (l : List (Expr × Expr)) :
    pairStrings l = l.map (fun q => exprString q.1 ++ ":" ++ exprString q.2) := by
  induction l with
  | nil => rfl
  | cons a t ih =>
    obtain ⟨k, v⟩ := a
    simp [pairStrings, ih]

/-! ## The claims -/

/-- C1: the specification (like the repository's own `language_spec.md`)
says an identifier is a letter or `_` followed by a maximal run of letters,
digits and underscores, so that `x1` is one `IDENT` token.  The code's
`readIdentifier` fast-forwards through `isLetter` only — digits stop the
scan — so `x1` is lexed as `IDENT "x"` followed by `INT "1"`. -/
theorem lexer_identifier_splits_digits :
    tokenize "x1" = [⟨"IDENT", "x"⟩, ⟨"INT", "1"⟩, ⟨"EOF", ""⟩] ∧
    (readIdentifier (lexerNew "x1")).1 = "x" :=
  ⟨by decide, by decide⟩

/-- C2 (counterexample): `HashLiteral.Pairs` is a Go map, whose iteration
order is unspecified.  For the parsed source `{"a": 1, "b": 2}` the node
holds the two source pairs, but the reversed sequence is an admissible
iteration, and it is observably different (`HashLiteral.String` prints it
differently), so the node does not preserve the source order of its
pairs. -/
theorem hash_literal_order_counterexample :
    (parseSource "\x7b\"a\": 1, \"b\": 2\x7d").1 =
      [.exprS (some (.hashE
        [(.strLit "a", .intLit "1" 1), (.strLit "b", .intLit "2" 2)]))] ∧
    ¬(∀ seq, hashIterSeq
        [(.strLit "a", .intLit "1" 1), (.strLit "b", .intLit "2" 2)] seq →
      seq = [(.strLit "a", .intLit "1" 1), (.strLit "b", .intLit "2" 2)]) := by
  constructor
  · rfl
  · intro hall
    have h := hall [(.strLit "b", .intLit "2" 2), (.strLit "a", .intLit "1" 1)]
      (List.Perm.swap _ _ _)
    have h2 := congrArg hashLiteralString h
    revert h2
    simp only [hashLiteralString, pairStrings, exprString]
    decide

/-- C2 (amended): a parsed hash literal's map holds exactly the source
pairs, but as an unordered collection: every admissible iteration is a
permutation of the source pairs — same length, and the printed
`key:value` entries are a permutation of the source ones — while the order
itself is not preserved. -/
theorem hash_literal_pairs_multiset (pairs seq : List (Expr × Expr))
    (h : hashIterSeq pairs seq) :
    seq.length = pairs.length ∧
    (pairStrings seq).Perm (pairStrings pairs) := by
  refine ⟨h.length_eq, ?_⟩
  rw [pairStrings_eq_map, pairStrings_eq_map]
  exact h.map _

theorem hash_literal_pairs_multiset_witness :
    (pairStrings [(.strLit "b", .intLit "2" 2), (.strLit "a", .intLit "1" 1)]).Perm
      (pairStrings [(.strLit "a", .intLit "1" 1), (.strLit "b", .intLit "2" 2)]) :=
  (hash_literal_pairs_multiset _ _ (List.Perm.swap _ _ _)).2

/-- C3 (counterexample): the source `if (a < b) { c }` parses without
errors, but its canonical string is `if(a < b) c` — `BlockStatement.String`
prints no braces — and that string does not re-parse without errors, so the
print/parse round trip fails. -/
theorem ast_roundtrip_counterexample :
    (parseSource "if (a < b) \x7b c \x7d").2 = [] ∧
    programString (parseSource "if (a < b) \x7b c \x7d").1 = "if(a < b) c" ∧
    (parseSource (programString (parseSource "if (a < b) \x7b c \x7d").1)).2 ≠ [] := by
  have h : (parseSource "if (a < b) \x7b c \x7d").1 =
      [.exprS (some (.ifE (.infixE (.ident "a") "<" (.ident "b"))
        [.exprS (some (.ident "c"))] none))] := rfl
  have h2 : programString [Stmt.exprS (some (.ifE (.infixE (.ident "a") "<" (.ident "b"))
      [.exprS (some (.ident "c"))] none))] = "if(a < b) c" := by
    simp [programString, blockString, stmtString, exprString]
  refine ⟨by decide, ?_, ?_⟩
  · rw [h]; exact h2
  · rw [h, h2]; decide

/-- C3 (amended): every prefix, infix and index expression prints inside a
pair of parentheses around its whole content.  The universal round-trip
half of the original claim is dropped: the canonical string does not in
general re-parse without errors (block statements print without braces —
see the counterexample).  The concrete source `let x = 5;` does round-trip:
its canonical string re-parses with no errors to the identical program. -/
theorem ast_parens_and_fixed_point :
    (∀ op r, exprString (.prefixE op r) = "(" ++ (op ++ exprString r) ++ ")") ∧
    (∀ a op b, exprString (.infixE a op b) =
      "(" ++ (exprString a ++ " " ++ op ++ " " ++ exprString b) ++ ")") ∧
    (∀ a i, exprString (.indexE a i) =
      "(" ++ (exprString a ++ "[" ++ exprString i ++ "]") ++ ")") ∧
    (parseSource "let x = 5;").2 = [] ∧
    programString (parseSource "let x = 5;").1 = "let x = 5;" ∧
    parseSource (programString (parseSource "let x = 5;").1) =
      parseSource "let x = 5;" := by
  refine ⟨?_, ?_, ?_, by decide, ?_, ?_⟩
  · intro op r; simp [exprString, String.append_assoc]
  · intro a op b; simp [exprString, String.append_assoc]
  · intro a i; simp [exprString, String.append_assoc]
  · have h : (parseSource "let x = 5;").1 =
        [.letS "let" "x" (some (.intLit "5" 5))] := rfl
    rw [h]
    simp [programString, blockString, stmtString, exprString]
  · have h : (parseSource "let x = 5;").1 =
        [.letS "let" "x" (some (.intLit "5" 5))] := rfl
    have h2 : programString [Stmt.letS "let" "x" (some (.intLit "5" 5))] =
        "let x = 5;" := by
      simp [programString, blockString, stmtString, exprString]
    rw [h, h2]

/-- C4: hash keys are injective images of the hashable payloads per
variant — a structural copy has the same key — keys of distinct variants
differ (the type tag is part of the key), and key equality is exactly
agreement of the type tag and the 64-bit numeric. -/
theorem hash_key_contract :
    (∀ v : HObj, hashKeyOf (hClone v) = hashKeyOf v) ∧
    (∀ v w : HObj, hTypeTag v ≠ hTypeTag w → hashKeyOf v ≠ hashKeyOf w) ∧
    (∀ k k' : HashKey, k = k' ↔ (k.type = k'.type ∧ k.value = k'.value)) := by
  refine ⟨?_, ?_, ?_⟩
  · intro v; cases v <;> rfl
  · intro v w hvw heq
    apply hvw
    have h1 : (hashKeyOf v).type = hTypeTag v := by cases v <;> rfl
    have h2 : (hashKeyOf w).type = hTypeTag w := by cases w <;> rfl
    rw [← h1, ← h2, heq]
  · intro k k'
    constructor
    · rintro rfl; exact ⟨rfl, rfl⟩
    · rintro ⟨h1, h2⟩; cases k; cases k'; cases h1; cases h2; rfl

theorem hash_key_contract_witness :
    hashKeyOf (.hint 7) ≠ hashKeyOf (.hbool true) :=
  hash_key_contract.2.1 _ _ (by decide)

/-- C5: once `NextToken` has returned an `EOF` token the lexer state is
stuck at the end-of-input sentinel, and every subsequent call returns the
same `EOF` token with the state unchanged. -/
theorem nextToken_eof_stable (l : Lexer) (t : Token) (l' : Lexer)
    (h : nextToken l = (t, l')) (heof : t.type = "EOF") :
    nextToken l' = (t, l') := by
  obtain ⟨rfl, hch⟩ := nextToken_eof_state l t l' h heof
  exact nextToken_at_zero l' hch

theorem nextToken_eof_stable_witness :
    nextToken (nextToken (lexerNew "")).2 =
      ((nextToken (lexerNew "")).1, (nextToken (lexerNew "")).2) :=
  nextToken_eof_stable (lexerNew "") _ _ rfl (by decide)

/-- C6: `Environment.Get` returns the binding of the innermost frame that
binds the name, searching outward (it equals the first hit along the frame
chain), reports not-found exactly when no frame binds the name, and
`Environment.Set` rewrites only the receiver's own store — every outer
frame is unchanged. -/
theorem env_get_set_contract :
    (∀ (e : Env) (n : String), envGet e n = chainLookup (frames e) n) ∧
    (∀ (e : Env) (n : String),
      envGet e n = none ↔ ∀ f ∈ frames e, f.lookup n = none) ∧
    (∀ (e : Env) (n : String) (v : ObjV),
      frames (envSet e n v) =
        storeSet ((frames e).headD []) n v :: (frames e).tail) := by
  refine ⟨envGet_eq_chain, ?_, ?_⟩
  · intro e n
    rw [envGet_eq_chain]
    exact chainLookup_eq_none _ _
  · intro e n v
    cases e <;> simp [envSet, frames]

/-- C7: `push(a, x)` allocates a fresh array cell holding `a`'s elements
followed by `x`; the original cell is untouched (same elements, same
length), and the result is a reference distinct from `a`'s.  A non-array
first argument produces the `argument to push not supported` error and
leaves the heap alone. -/
theorem builtin_push_fresh (h : Heap) (elems : List ObjV) (i : Nat) (x : ObjV)
    (hi : h.get? i = some elems) :
    builtinPush h [.arrRef i, x] = (h ++ [elems ++ [x]], .arrRef h.length) ∧
    (h ++ [elems ++ [x]]).get? i = some elems ∧
    (h ++ [elems ++ [x]]).get? h.length = some (elems ++ [x]) ∧
    h.length ≠ i ∧
    (∀ a : ObjV, typeName a ≠ "ARRAY" → ∀ y : ObjV,
      builtinPush h [a, y] =
        (h, .error ("argument to `push` not supported, got " ++ typeName a))) := by
  have hilen : i < h.length := by
    by_contra hc
    rw [List.get?_eq_none.mpr (by omega)] at hi
    exact Option.noConfusion hi
  have hgetD : h[i]?.getD [] = elems := by
    rw [← List.get?_eq_getElem?, hi]; rfl
  refine ⟨?_, ?_, ?_, by omega, ?_⟩
  · simp [builtinPush, hgetD]
  · rw [List.get?_append hilen]; exact hi
  · exact List.get?_concat_length h (elems ++ [x])
  · intro a ha y
    cases a <;> first
      | rfl
      | exact absurd rfl ha

theorem builtin_push_fresh_witness :
    builtinPush [[.int 1]] [.arrRef 0, .int 2] =
      ([[.int 1], [.int 1, .int 2]], .arrRef 1) :=
  (builtin_push_fresh [[.int 1]] [.int 1] 0 (.int 2) rfl).1

/-- C8: each of `len`, `first`, `last` and `rest` rejects any argument
count other than one, and `push` any count other than two, with exactly the
`wrong number of arguments. got=N, want=K` error message and no change to
the heap. -/
theorem builtin_arity_errors (h : Heap) (args : List ObjV) :
    (args.length ≠ 1 →
      builtinLen h args = (h, .error ("wrong number of arguments. got=" ++
        toString args.length ++ ", want=1")) ∧
      builtinFirst h args = (h, .error ("wrong number of arguments. got=" ++
        toString args.length ++ ", want=1")) ∧
      builtinLast h args = (h, .error ("wrong number of arguments. got=" ++
        toString args.length ++ ", want=1")) ∧
      builtinRest h args = (h, .error ("wrong number of arguments. got=" ++
        toString args.length ++ ", want=1"))) ∧
    (args.length ≠ 2 →
      builtinPush h args = (h, .error ("wrong number of arguments. got=" ++
        toString args.length ++ ", want=2"))) := by
  constructor
  · intro hne
    rcases args with _ | ⟨a, _ | ⟨b, t⟩⟩
    · exact ⟨rfl, rfl, rfl, rfl⟩
    · exact absurd rfl hne
    · exact ⟨rfl, rfl, rfl, rfl⟩
  · intro hne
    rcases args with _ | ⟨a, _ | ⟨b, _ | ⟨c, t⟩⟩⟩
    · rfl
    · rfl
    · exact absurd rfl hne
    · rfl

theorem builtin_arity_errors_witness :
    builtinLen [] [] = ([], .error "wrong number of arguments. got=0, want=1") ∧
    builtinPush [] [] = ([], .error "wrong number of arguments. got=0, want=2") :=
  ⟨((builtin_arity_errors [] []).1 (by decide)).1,
   (builtin_arity_errors [] []).2 (by decide)⟩

/-- C9: indexing an array out of bounds yields `Null`, not an error, and
looking up a key absent from a hash yields `Null` as well. -/
theorem index_missing_yields_null (elems : List ObjV) (i : Int)
    (pairs : List (HashKey × ObjV)) (k : HashKey)
    (hi : i < 0 ∨ (elems.length : Int) ≤ i) (hk : pairs.lookup k = none) :
    evalArrayIndexExpression elems i = .null ∧
    evalHashIndexExpression pairs k = .null := by
  constructor
  · unfold evalArrayIndexExpression
    dsimp only
    rw [if_pos (by omega)]
  · unfold evalHashIndexExpression
    rw [hk]

theorem index_missing_yields_null_witness :
    evalArrayIndexExpression [.int 1] 5 = .null ∧
    evalHashIndexExpression [] ⟨"INTEGER", 0⟩ = .null :=
  index_missing_yields_null [.int 1] 5 [] ⟨"INTEGER", 0⟩ (by decide) rfl

/-- C10: on a `String` whose cache is empty, `HashKey()` returns the
`STRING`-tagged FNV-1a 64-bit hash of the contents — the `ERROR`-tagged
branch is unreachable because the FNV hasher's `Write` always succeeds —
and calling it again on the memoized receiver returns the same key and
state. -/
theorem string_hash_key_fnv (s : StrObj) (h : s.hashKey = none) :
    (strHashKey s).1 = ⟨"STRING", fnv1a64 s.value⟩ ∧
    (strHashKey s).1.type ≠ "ERROR" ∧
    strHashKey (strHashKey s).2 = ((strHashKey s).1, (strHashKey s).2) := by
  obtain ⟨val, cache⟩ := s
  cases h
  exact ⟨rfl, fun hc => absurd hc (show ¬("STRING" : String) = "ERROR" by decide), rfl⟩

theorem string_hash_key_fnv_witness :
    (strHashKey ⟨[104, 105], none⟩).1 = ⟨"STRING", fnv1a64 [104, 105]⟩ :=
  (string_hash_key_fnv ⟨[104, 105], none⟩ rfl).1

end Monke
